import Mathlib

/-!
Verification of the symbol_inject core (format dispatcher, symbol resolver,
streaming patcher, dump) against its natural-language specification.

The Go code is shallowly embedded: uint64 values are `Nat` with an explicit
`% 2 ^ 64` wherever the Go arithmetic can wrap; byte sources and output sinks
are `List Nat` (each element a byte value); fallible operations return
`Except`.  A Go `*Section` pointer held by a `Symbol` is embedded as an index
into the `File`'s section list (pointer equality becomes index equality), as
each section is materialised exactly once by a reader.
-/

set_option autoImplicit false

deriving instance DecidableEq for Except

namespace SymbolInject

/-- The modulus of Go's uint64 arithmetic. -/
def U64 : Nat := 2 ^ 64

/-- Embeds the Go struct `Section`: a contiguous region of the binary.
`Addr` is the virtual address, `Offset` the file offset of the section's
first byte, `Size` its byte length. -/
structure Section where
  Name : String
  Addr : Nat
  Offset : Nat
  Size : Nat
deriving DecidableEq, Repr

/-- Embeds the Go struct `Symbol`.  The Go field `Section *Section` is
embedded as the index of the section inside the owning `File`'s section
list; the Go pointer comparison `Symbols[n].Section != symbol.Section`
becomes inequality of these indices. -/
structure Symbol where
  Name : String
  Addr : Nat
  Size : Nat
  Section : Nat
deriving DecidableEq, Repr

/-- Embeds the Go struct `File` (the reader handle `r` is passed separately
to the patching operations as an explicit byte list). -/
structure File where
  Symbols : List Symbol
  Sections : List Section
deriving DecidableEq, Repr

/-- The distinct terminal failures of the resolver and patcher
(the spec's error taxonomy, one constructor per distinct
`fmt.Errorf` site plus the `ReadAt` failure path). -/
inductive PatchError where
  | symbolNotFound
  | implausibleBound
  | valueOverflowsCapacity
  | priorValueMismatch
  | typeMismatch
  | readError
deriving DecidableEq, Repr

/-- The section a symbol's index designates (a Go `*Section` dereference;
a reader-produced file always has the index in range, so the default is
never reached on well-formed input). -/
def File.sectionOf (file : File) (sym : Symbol) : Section :=
  file.Sections.getD sym.Section ⟨"", 0, 0, 0⟩

/-- Embeds the inner loop of `findSymbol` (`for n = i; n < len; n++`):
starting at the matched symbol itself, return the address of the first
symbol in the same section with a strictly greater address (`some`), or
`none` when a symbol of a different section or the end of the list is
reached (the Go code sets `n = len(file.Symbols)` in the former case, so
both exits coincide). -/
def scanEnd (sym : Symbol) : List Symbol → Option Nat
  | [] => none
  | s :: rest =>
    if s.Section ≠ sym.Section then none
    else if sym.Addr < s.Addr then some s.Addr
    else scanEnd sym rest

/-- The end address used by `findSymbol`'s size inference: the scan result,
or the enclosing section's size when the scan found no bound. -/
def inferredEnd (file : File) (sym : Symbol) (fromMatch : List Symbol) : Nat :=
  match scanEnd sym fromMatch with
  | some a => a
  | none => (file.sectionOf sym).Size

/-- Embeds the body of `findSymbol` once a name match is found at index `i`;
`fromMatch` is the sub-list of `file.Symbols` starting at `i`.  Mirrors:
size inference when `symbol.Size == 0` with the plausibility test
`end <= symbol.Addr || end > symbol.Addr+4096` (the addition wraps in
uint64), then `offset := symbol.Section.Offset + symbol.Addr` (also uint64
addition). -/
def resolveSymbol (file : File) (sym : Symbol) (fromMatch : List Symbol) :
    Except PatchError (Nat × Nat) :=
  if sym.Size = 0 then
    if inferredEnd file sym fromMatch ≤ sym.Addr ∨
        (sym.Addr + 4096) % U64 < inferredEnd file sym fromMatch then
      .error .implausibleBound
    else
      .ok (((file.sectionOf sym).Offset + sym.Addr) % U64,
        inferredEnd file sym fromMatch - sym.Addr)
  else
    .ok (((file.sectionOf sym).Offset + sym.Addr) % U64, sym.Size)

/-- Embeds the outer loop of `findSymbol`: linear scan for the first symbol
whose name equals `symbolName`. -/
def findSymbolAux (file : File) (symbolName : String) :
    List Symbol → Except PatchError (Nat × Nat)
  | [] => .error .symbolNotFound
  | sym :: rest =>
    if sym.Name = symbolName then resolveSymbol file sym (sym :: rest)
    else findSymbolAux file symbolName rest

/-- Embeds `findSymbol(file, symbolName) (uint64, uint64, error)`:
resolves a symbol name to a file offset and a byte size. -/
def findSymbol (file : File) (symbolName : String) : Except PatchError (Nat × Nat) :=
  findSymbolAux file symbolName file.Symbols

/-- Embeds `copyAndInject(r, w, offset, buf)`.  The three steps are: copy
bytes `[0, offset)` of the source, write `buf`, copy the rest from
`offset + len(buf)` on.  Each step is an `io.Copy` from a section reader;
`io.Copy` reads until EOF and reports EOF as success, so a source shorter
than a section bound yields the available bytes with a nil error (`take`
and `drop` clamp the same way), and the final `err == io.EOF` test of the
Go code never fires for a random-access source; the function is therefore
total in this embedding. -/
def copyAndInject (src : List Nat) (offset : Nat) (buf : List Nat) : List Nat :=
  src.take offset ++ buf ++ src.drop (offset + buf.length)

/-- Embeds `make([]byte, size)` followed by `copy(buf, v)`: a buffer of
exactly `size` bytes holding the first `min size (len v)` bytes of `v`
followed by zero fill. -/
def zeroPad (size : Nat) (v : List Nat) : List Nat :=
  (v ++ List.replicate size 0).take size

/-- Embeds `file.r.ReadAt(existing, int64(offset))` for a buffer of length
`size`: `ReadAt` returns a non-nil error (io.EOF) whenever fewer than
`size` bytes are available at `offset`. -/
def readAt (src : List Nat) (offset size : Nat) : Except PatchError (List Nat) :=
  if offset + size ≤ src.length then .ok ((src.drop offset).take size)
  else .error .readError

/-- Embeds `InjectStringSymbol(file, w, symbol, value, from)`:
resolve the symbol, reject when `len(value)+1 > size`, optionally verify
the existing bytes against the zero-padded `from`, then stream the patched
output.  `value` and `fromValue` are the raw bytes of the Go strings. -/
def injectStringSymbol (file : File) (src : List Nat) (symbol : String)
    (value fromValue : List Nat) : Except PatchError (List Nat) :=
  match findSymbol file symbol with
  | .error e => .error e
  | .ok (offset, size) =>
    if size < value.length + 1 then .error .valueOverflowsCapacity
    else if fromValue ≠ [] then
      match readAt src offset size with
      | .error e => .error e
      | .ok existing =>
        if existing ≠ zeroPad size fromValue then .error .priorValueMismatch
        else .ok (copyAndInject src offset (zeroPad size value))
    else .ok (copyAndInject src offset (zeroPad size value))

/-- Embeds `binary.LittleEndian.PutUint64(buf, value)`: the 8 little-endian
base-256 digits of `value` (for `value < 2 ^ 64` these reconstruct it
exactly). -/
def putUint64LE (value : Nat) : List Nat :=
  (List.range 8).map (fun j => value / 2 ^ (8 * j) % 256)

/-- Embeds `InjectUint64Symbol(file, w, symbol, value)`: resolve the symbol,
require its size to be exactly 8, then stream the patched output with the
little-endian encoding of `value`. -/
def injectUint64Symbol (file : File) (src : List Nat) (symbol : String)
    (value : Nat) : Except PatchError (List Nat) :=
  match findSymbol file symbol with
  | .error e => .error e
  | .ok (offset, size) =>
    if size ≠ 8 then .error .typeMismatch
    else .ok (copyAndInject src offset (putUint64LE value))

/-- A format reader's outcome, as classified by `OpenFile`'s type switch:
`cantParse` embeds the `cantParseError` wrapper ("not a file of this
format"), `other` any other error.  The payload identifies the underlying
error value. -/
inductive ReaderError where
  | cantParse (msg : String)
  | other (msg : String)
deriving DecidableEq, Repr

/-- Embeds `OpenFile(r)`: the three per-format extraction results are taken
as inputs (the readers themselves are external collaborators).  ELF is
tried first; a `cantParseError` falls through to Mach-O, then PE; when all
three report `cantParseError` the original ELF error is returned; any
non-`cantParse` failure is returned as-is by the trailing
`if err != nil` check. -/
def openFile (elfResult machoResult peResult : Except ReaderError File) :
    Except ReaderError File :=
  match elfResult with
  | .ok f => .ok f
  | .error (.other e) => .error (.other e)
  | .error (.cantParse elfMsg) =>
    match machoResult with
    | .ok f => .ok f
    | .error (.other e) => .error (.other e)
    | .error (.cantParse _) =>
      match peResult with
      | .ok f => .ok f
      | .error (.other e) => .error (.other e)
      | .error (.cantParse _) => .error (.cantParse elfMsg)

/-- Embeds `DumpSymbols(r)`: the same three-way fallback over the
per-format dump routines, whose success carries no value. -/
def dumpSymbols (elfResult machoResult peResult : Except ReaderError Unit) :
    Except ReaderError Unit :=
  match elfResult with
  | .ok u => .ok u
  | .error (.other e) => .error (.other e)
  | .error (.cantParse elfMsg) =>
    match machoResult with
    | .ok u => .ok u
    | .error (.other e) => .error (.other e)
    | .error (.cantParse _) =>
      match peResult with
      | .ok u => .ok u
      | .error (.other e) => .error (.other e)
      | .error (.cantParse _) => .error (.cantParse elfMsg)

/-- Spec-side description of the inferred end address (§4.2 step 1 and 2):
scan the symbols after the match for the first one that leaves the section
or has a strictly greater address in the same section; its address is the
end when it is in the same section, otherwise (or when the list is
exhausted) the enclosing section's size is the end. -/
def specInferredEnd (file : File) (sym : Symbol) (post : List Symbol) : Nat :=
  match post.find? (fun s => decide (s.Section ≠ sym.Section ∨ sym.Addr < s.Addr)) with
  | some s => if s.Section = sym.Section then s.Addr else (file.sectionOf sym).Size
  | none => (file.sectionOf sym).Size

/-! Helper lemmas relating the loops of `findSymbol` to declarative
descriptions of their outcomes. -/

lemma findSymbolAux_append (file : File) (name : String) (pre rest : List Symbol)
    (h : ∀ s ∈ pre, s.Name ≠ name) :
    findSymbolAux file name (pre ++ rest) = findSymbolAux file name rest := by
  induction pre with
  | nil => rfl
  | cons a pre ih =>
    have ha : ¬a.Name = name := h a (by simp)
    simp only [List.cons_append, findSymbolAux, if_neg ha]
    exact ih fun s hs => h s (by simp [hs])

lemma scanEnd_cons_self (sym : Symbol) (post : List Symbol) :
    scanEnd sym (sym :: post) = scanEnd sym post := by
  simp [scanEnd]

lemma scanEnd_match_eq_spec (file : File) (sym : Symbol) :
    ∀ post : List Symbol,
      (match scanEnd sym post with
        | some a => a
        | none => (file.sectionOf sym).Size) = specInferredEnd file sym post
  | [] => by simp [scanEnd, specInferredEnd]
  | s :: rest => by
    by_cases hsec : s.Section = sym.Section
    · by_cases haddr : sym.Addr < s.Addr
      · simp [scanEnd, specInferredEnd, List.find?_cons, hsec, haddr]
      · have ih := scanEnd_match_eq_spec file sym rest
        have hscan : scanEnd sym (s :: rest) = scanEnd sym rest := by
          simp [scanEnd, hsec, haddr]
        have hfind : specInferredEnd file sym (s :: rest) = specInferredEnd file sym rest := by
          unfold specInferredEnd
          rw [List.find?_cons]
          have hp : decide (s.Section ≠ sym.Section ∨ sym.Addr < s.Addr) = false := by
            simp [hsec, haddr]
          rw [hp]
        rw [hscan, hfind]
        exact ih
    · simp [scanEnd, specInferredEnd, List.find?_cons, hsec]

lemma inferredEnd_cons_eq_spec (file : File) (sym : Symbol) (post : List Symbol) :
    inferredEnd file sym (sym :: post) = specInferredEnd file sym post := by
  unfold inferredEnd
  rw [scanEnd_cons_self]
  exact scanEnd_match_eq_spec file sym post

lemma resolveSymbol_ne_notFound (file : File) (sym : Symbol) (l : List Symbol) :
    resolveSymbol file sym l ≠ .error .symbolNotFound := by
  unfold resolveSymbol
  split
  · split
    · intro h
      injection h with h
      cases h
    · intro h
      cases h
  · intro h
    cases h

lemma findSymbolAux_notFound_iff (file : File) (name : String) :
    ∀ l : List Symbol,
      (findSymbolAux file name l = .error .symbolNotFound ↔ ∀ s ∈ l, s.Name ≠ name)
  | [] => by simp [findSymbolAux]
  | sym :: rest => by
    by_cases h : sym.Name = name
    · simp only [findSymbolAux, if_pos h]
      constructor
      · intro hr
        exact absurd hr (resolveSymbol_ne_notFound _ _ _)
      · intro hall
        exact absurd h (hall sym (by simp))
    · simp only [findSymbolAux, if_neg h]
      rw [findSymbolAux_notFound_iff file name rest]
      constructor
      · intro hall s hs
        rcases List.mem_cons.mp hs with rfl | hs
        · exact h
        · exact hall s hs
      · intro hall s hs
        exact hall s (by simp [hs])

lemma findSymbol_reduce (file : File) (name : String) (pre post : List Symbol)
    (sym : Symbol) (hsplit : file.Symbols = pre ++ sym :: post)
    (hpre : ∀ s ∈ pre, s.Name ≠ name) (hname : sym.Name = name) :
    findSymbol file name = resolveSymbol file sym (sym :: post) := by
  unfold findSymbol
  rw [hsplit, findSymbolAux_append file name pre _ hpre]
  simp [findSymbolAux, hname]

/-- C9: `findSymbol` fails with the symbol-not-found error exactly when no
symbol in the file's list bears the requested name, and otherwise its
result is the resolution of the first symbol (in list order) whose name
matches. -/
theorem findSymbol_first_match (file : File) (name : String) :
    ((findSymbol file name = .error .symbolNotFound) ↔
      ∀ s ∈ file.Symbols, s.Name ≠ name) ∧
    (∀ pre sym post, file.Symbols = pre ++ sym :: post →
      (∀ s ∈ pre, s.Name ≠ name) → sym.Name = name →
      findSymbol file name = resolveSymbol file sym (sym :: post)) := by
  constructor
  · exact findSymbolAux_notFound_iff file name file.Symbols
  · intro pre sym post hsplit hpre hname
    exact findSymbol_reduce file name pre post sym hsplit hpre hname

/-- Witness for C9: on a concrete two-symbol file the lookup of "a" skips the
non-matching first symbol and resolves the second, and a lookup of an
absent name reports symbol-not-found. -/
theorem findSymbol_first_match_witness :
    findSymbol ⟨[⟨"x", 0, 4, 0⟩, ⟨"a", 8, 8, 0⟩], [⟨"s", 0, 0, 32⟩]⟩ "a" =
      resolveSymbol ⟨[⟨"x", 0, 4, 0⟩, ⟨"a", 8, 8, 0⟩], [⟨"s", 0, 0, 32⟩]⟩
        ⟨"a", 8, 8, 0⟩ [⟨"a", 8, 8, 0⟩] :=
  (findSymbol_first_match ⟨[⟨"x", 0, 4, 0⟩, ⟨"a", 8, 8, 0⟩], [⟨"s", 0, 0, 32⟩]⟩ "a").2
    [⟨"x", 0, 4, 0⟩] ⟨"a", 8, 8, 0⟩ [] rfl (by decide) rfl

/-- C1 (amended): when the first name match has recorded size 0, the scan
bound is `specInferredEnd`; the resolution fails with the implausible-bound
error exactly when that end address is at most the symbol's address or
exceeds the uint64 sum `address + 4096` (which wraps modulo `2 ^ 64`), and
otherwise returns the size `end - address`. -/
theorem findSymbol_inferred_size (file : File) (name : String)
    (pre post : List Symbol) (sym : Symbol)
    (hsplit : file.Symbols = pre ++ sym :: post)
    (hpre : ∀ s ∈ pre, s.Name ≠ name)
    (hname : sym.Name = name) (hsz : sym.Size = 0) :
    ((specInferredEnd file sym post ≤ sym.Addr ∨
        (sym.Addr + 4096) % U64 < specInferredEnd file sym post) →
      findSymbol file name = .error .implausibleBound) ∧
    (sym.Addr < specInferredEnd file sym post →
      specInferredEnd file sym post ≤ (sym.Addr + 4096) % U64 →
      findSymbol file name =
        .ok (((file.sectionOf sym).Offset + sym.Addr) % U64,
          specInferredEnd file sym post - sym.Addr)) := by
  rw [findSymbol_reduce file name pre post sym hsplit hpre hname]
  unfold resolveSymbol
  rw [if_pos hsz, inferredEnd_cons_eq_spec]
  constructor
  · intro hcond
    rw [if_pos hcond]
  · intro h1 h2
    have hneg : ¬(specInferredEnd file sym post ≤ sym.Addr ∨
        (sym.Addr + 4096) % U64 < specInferredEnd file sym post) := by
      push_neg
      exact ⟨h1, h2⟩
    rw [if_neg hneg]

/-- C1 counterexample: with the matched symbol at address `2 ^ 64 - 4096`
and the next same-section symbol at `2 ^ 64 - 1`, the claim's condition
`end - address > 4096` is false (the gap is 4095) and `end > address`, so
the claim predicts success with size 4095; the code's uint64 comparison
`end > address + 4096` wraps to `end > 0` and the resolution fails. -/
theorem findSymbol_inferred_size_counterexample :
    findSymbol ⟨[⟨"a", 2 ^ 64 - 4096, 0, 0⟩, ⟨"b", 2 ^ 64 - 1, 0, 0⟩],
        [⟨"s", 0, 0, 0⟩]⟩ "a" = .error .implausibleBound ∧
    specInferredEnd ⟨[⟨"a", 2 ^ 64 - 4096, 0, 0⟩, ⟨"b", 2 ^ 64 - 1, 0, 0⟩],
        [⟨"s", 0, 0, 0⟩]⟩ ⟨"a", 2 ^ 64 - 4096, 0, 0⟩ [⟨"b", 2 ^ 64 - 1, 0, 0⟩] =
      2 ^ 64 - 1 ∧
    ¬((2 ^ 64 - 1 : Nat) ≤ 2 ^ 64 - 4096 ∨
        (2 ^ 64 - 1 : Nat) - (2 ^ 64 - 4096) > 4096) := by
  refine ⟨by decide, by decide, by decide⟩

/-- Witness for C1: a size-0 symbol at address 0 followed by a same-section
symbol at address 10 resolves successfully with inferred size 10. -/
theorem findSymbol_inferred_size_witness :
    findSymbol ⟨[⟨"a", 0, 0, 0⟩, ⟨"b", 10, 0, 0⟩], [⟨"s", 0, 0, 100⟩]⟩ "a" =
      .ok (((File.sectionOf ⟨[⟨"a", 0, 0, 0⟩, ⟨"b", 10, 0, 0⟩], [⟨"s", 0, 0, 100⟩]⟩
          ⟨"a", 0, 0, 0⟩).Offset + 0) % U64,
        specInferredEnd ⟨[⟨"a", 0, 0, 0⟩, ⟨"b", 10, 0, 0⟩], [⟨"s", 0, 0, 100⟩]⟩
          ⟨"a", 0, 0, 0⟩ [⟨"b", 10, 0, 0⟩] - 0) :=
  (findSymbol_inferred_size ⟨[⟨"a", 0, 0, 0⟩, ⟨"b", 10, 0, 0⟩], [⟨"s", 0, 0, 100⟩]⟩
      "a" [] [⟨"b", 10, 0, 0⟩] ⟨"a", 0, 0, 0⟩ rfl (by decide) rfl rfl).2
    (by decide) (by decide)

lemma resolveSymbol_ok_offset (file : File) (sym : Symbol) (l : List Symbol)
    (offset size : Nat) (h : resolveSymbol file sym l = .ok (offset, size)) :
    offset = ((file.sectionOf sym).Offset + sym.Addr) % U64 := by
  unfold resolveSymbol at h
  split at h
  · split at h
    · cases h
    · simp only [Except.ok.injEq, Prod.mk.injEq] at h
      exact h.1.symm
  · simp only [Except.ok.injEq, Prod.mk.injEq] at h
    exact h.1.symm

/-- C2 (amended): a successful resolution returns the uint64 sum of the
matched symbol's section file offset and the symbol's address (reduced
modulo `2 ^ 64`); when additionally the symbol's resolved span fits inside
its section (`address + size ≤ section.size`) and the section's file range
does not overflow uint64, the resolved byte range lies within the
section's file range. -/
theorem findSymbol_offset_in_section (file : File) (name : String)
    (pre post : List Symbol) (sym : Symbol) (offset size : Nat)
    (hsplit : file.Symbols = pre ++ sym :: post)
    (hpre : ∀ s ∈ pre, s.Name ≠ name) (hname : sym.Name = name)
    (hok : findSymbol file name = .ok (offset, size)) :
    offset = ((file.sectionOf sym).Offset + sym.Addr) % U64 ∧
    (sym.Addr + size ≤ (file.sectionOf sym).Size →
      (file.sectionOf sym).Offset + (file.sectionOf sym).Size < U64 →
      (file.sectionOf sym).Offset ≤ offset ∧
      offset + size ≤ (file.sectionOf sym).Offset + (file.sectionOf sym).Size) := by
  rw [findSymbol_reduce file name pre post sym hsplit hpre hname] at hok
  have hoff := resolveSymbol_ok_offset file sym (sym :: post) offset size hok
  refine ⟨hoff, fun hfit hnoov => ?_⟩
  have hOA : (file.sectionOf sym).Offset + sym.Addr < U64 := by omega
  rw [Nat.mod_eq_of_lt hOA] at hoff
  subst hoff
  exact ⟨Nat.le_add_right _ _, by omega⟩

/-- C2 counterexample: a symbol with explicit size 50 at address 100 inside
a section of size 10 resolves successfully, yet its byte range `[100, 150)`
does not lie within the section's file range `[0, 10)`: the code performs
no containment check. -/
theorem findSymbol_offset_in_section_counterexample :
    findSymbol ⟨[⟨"a", 100, 50, 0⟩], [⟨"s", 0, 0, 10⟩]⟩ "a" = .ok (100, 50) ∧
    ¬(100 + 50 ≤
        (File.sectionOf ⟨[⟨"a", 100, 50, 0⟩], [⟨"s", 0, 0, 10⟩]⟩
            ⟨"a", 100, 50, 0⟩).Offset +
        (File.sectionOf ⟨[⟨"a", 100, 50, 0⟩], [⟨"s", 0, 0, 10⟩]⟩
            ⟨"a", 100, 50, 0⟩).Size) := by
  refine ⟨by decide, by decide⟩

/-- Witness for C2: a symbol of size 4 at address 2 in a section with file
offset 10 and size 8 resolves to offset 12, and `[12, 16)` lies within
`[10, 18)`. -/
theorem findSymbol_offset_in_section_witness :
    (12 : Nat) = ((File.sectionOf ⟨[⟨"a", 2, 4, 0⟩], [⟨"s", 0, 10, 8⟩]⟩
        ⟨"a", 2, 4, 0⟩).Offset + Symbol.Addr ⟨"a", 2, 4, 0⟩) % U64 ∧
    (File.sectionOf ⟨[⟨"a", 2, 4, 0⟩], [⟨"s", 0, 10, 8⟩]⟩
        ⟨"a", 2, 4, 0⟩).Offset ≤ 12 ∧
    12 + 4 ≤ (File.sectionOf ⟨[⟨"a", 2, 4, 0⟩], [⟨"s", 0, 10, 8⟩]⟩
        ⟨"a", 2, 4, 0⟩).Offset +
      (File.sectionOf ⟨[⟨"a", 2, 4, 0⟩], [⟨"s", 0, 10, 8⟩]⟩
        ⟨"a", 2, 4, 0⟩).Size := by
  have h := findSymbol_offset_in_section ⟨[⟨"a", 2, 4, 0⟩], [⟨"s", 0, 10, 8⟩]⟩ "a"
    [] [] ⟨"a", 2, 4, 0⟩ 12 4 rfl (by decide) rfl (by decide)
  exact ⟨h.1, h.2 (by decide) (by decide)⟩

lemma zeroPad_length (size : Nat) (v : List Nat) : (zeroPad size v).length = size := by
  simp only [zeroPad, List.length_take, List.length_append, List.length_replicate]
  omega

lemma zeroPad_of_le (size : Nat) (v : List Nat) (h : v.length ≤ size) :
    zeroPad size v = v ++ List.replicate (size - v.length) 0 := by
  unfold zeroPad
  rw [List.take_append_eq_append_take, List.take_of_length_le h, List.take_replicate]
  congr 1
  congr 1
  omega

lemma zeroPad_of_ge (size : Nat) (v : List Nat) (h : size ≤ v.length) :
    zeroPad size v = v.take size := by
  unfold zeroPad
  rw [List.take_append_of_le_length h]

lemma readAt_error_eq (src : List Nat) (offset size : Nat) (e : PatchError)
    (h : readAt src offset size = .error e) : e = .readError := by
  unfold readAt at h
  split at h
  · cases h
  · injection h with h
    exact h.symm

lemma injectStringSymbol_eq (file : File) (src : List Nat) (name : String)
    (value fromValue : List Nat) (offset size : Nat)
    (hok : findSymbol file name = .ok (offset, size)) :
    injectStringSymbol file src name value fromValue =
      (if size < value.length + 1 then .error .valueOverflowsCapacity
       else if fromValue ≠ [] then
         match readAt src offset size with
         | .error e => .error e
         | .ok existing =>
           if existing ≠ zeroPad size fromValue then .error .priorValueMismatch
           else .ok (copyAndInject src offset (zeroPad size value))
       else .ok (copyAndInject src offset (zeroPad size value))) := by
  unfold injectStringSymbol
  rw [hok]

lemma copyAndInject_zeroPad (src : List Nat) (offset size : Nat) (value : List Nat)
    (h : value.length ≤ size) :
    copyAndInject src offset (zeroPad size value) =
      src.take offset ++ (value ++ List.replicate (size - value.length) 0) ++
        src.drop (offset + size) := by
  rw [copyAndInject, zeroPad_length, zeroPad_of_le size value h]

/-- C3: string injection fails with the capacity error exactly when
`len(value) + 1 > size`; when the value fits and either no prior value is
supplied or the prior check passes, the output stream carries, at the
symbol's offset, exactly `size` bytes whose first `len(value)` bytes are
the value and whose remainder is zero fill. -/
theorem injectString_capacity (file : File) (src : List Nat) (name : String)
    (value fromValue : List Nat) (offset size : Nat)
    (hok : findSymbol file name = .ok (offset, size)) :
    ((injectStringSymbol file src name value fromValue =
        .error .valueOverflowsCapacity) ↔ size < value.length + 1) ∧
    (value.length + 1 ≤ size →
      (fromValue = [] ∨ readAt src offset size = .ok (zeroPad size fromValue)) →
      injectStringSymbol file src name value fromValue =
        .ok (src.take offset ++ (value ++ List.replicate (size - value.length) 0) ++
          src.drop (offset + size))) := by
  rw [injectStringSymbol_eq file src name value fromValue offset size hok]
  constructor
  · by_cases hc : size < value.length + 1
    · simp [hc]
    · rw [if_neg hc]
      simp only [hc, iff_false]
      by_cases hf : fromValue = []
      · simp [hf]
      · rw [if_pos hf]
        cases hr : readAt src offset size with
        | error e =>
          have := readAt_error_eq src offset size e hr
          subst this
          simp
        | ok existing =>
          by_cases hne : existing ≠ zeroPad size fromValue
          · simp [hne]
          · simp [hne]
  · intro hcap hsrc
    rw [if_neg (by omega)]
    have hgoal : Except.ok (copyAndInject src offset (zeroPad size value)) =
        (Except.ok (src.take offset ++
          (value ++ List.replicate (size - value.length) 0) ++
          src.drop (offset + size)) : Except PatchError (List Nat)) := by
      rw [copyAndInject_zeroPad src offset size value (by omega)]
    by_cases hf : fromValue = []
    · rw [if_neg (by simp [hf])]
      exact hgoal
    · rcases hsrc with hsrc | hread
      · exact absurd hsrc hf
      · rw [if_pos hf, hread]
        simp only [ne_eq, not_true_eq_false, if_false, ite_false]
        exact hgoal

/-- Witness for C3: a 3-byte value injected into an 8-byte symbol at offset
2 of a 16-byte source does not overflow and writes the value followed by
five zero bytes. -/
theorem injectString_capacity_witness :
    ((injectStringSymbol ⟨[⟨"a", 2, 8, 0⟩], [⟨"s", 0, 0, 16⟩]⟩ (List.range 16) "a"
        [1, 2, 3] [] = .error .valueOverflowsCapacity) ↔
      8 < [1, 2, 3].length + 1) ∧
    injectStringSymbol ⟨[⟨"a", 2, 8, 0⟩], [⟨"s", 0, 0, 16⟩]⟩ (List.range 16) "a"
        [1, 2, 3] [] =
      .ok ((List.range 16).take 2 ++
        ([1, 2, 3] ++ List.replicate (8 - [1, 2, 3].length) 0) ++
        (List.range 16).drop (2 + 8)) := by
  have h := injectString_capacity ⟨[⟨"a", 2, 8, 0⟩], [⟨"s", 0, 0, 16⟩]⟩
    (List.range 16) "a" [1, 2, 3] [] 2 8 (by decide)
  exact ⟨h.1, h.2 (by decide) (Or.inl rfl)⟩

/-- C4: with a non-empty expected prior value, once the symbol is resolved
and the value fits, the patcher reads the existing `size` bytes at the
symbol's offset and, when they differ from the zero-padded representation
of the expected prior value, fails with the prior-value-mismatch error;
the failure produces no output stream. -/
theorem injectString_prior_mismatch (file : File) (src : List Nat) (name : String)
    (value fromValue existing : List Nat) (offset size : Nat)
    (hfrom : fromValue ≠ [])
    (hok : findSymbol file name = .ok (offset, size))
    (hcap : value.length + 1 ≤ size)
    (hread : readAt src offset size = .ok existing)
    (hne : existing ≠ zeroPad size fromValue) :
    injectStringSymbol file src name value fromValue = .error .priorValueMismatch := by
  rw [injectStringSymbol_eq file src name value fromValue offset size hok,
    if_neg (by omega : ¬size < value.length + 1), if_pos hfrom, hread]
  simp [hne]

/-- Witness for C4: the existing bytes `[2 .. 9]` of the source differ from
the zero-padded expected prior value `[5, 5, 0, 0, 0, 0, 0, 0]`, so the
injection fails with the prior-value-mismatch error. -/
theorem injectString_prior_mismatch_witness :
    injectStringSymbol ⟨[⟨"a", 2, 8, 0⟩], [⟨"s", 0, 0, 16⟩]⟩ (List.range 16) "a"
      [3] [5, 5] = .error .priorValueMismatch :=
  injectString_prior_mismatch ⟨[⟨"a", 2, 8, 0⟩], [⟨"s", 0, 0, 16⟩]⟩ (List.range 16)
    "a" [3] [5, 5] [2, 3, 4, 5, 6, 7, 8, 9] 2 8
    (by decide) (by decide) (by decide) (by decide) (by decide)

/-- C10: when the expected prior value is longer than the resolved symbol
size, no capacity error is raised for it; the integrity check compares the
existing bytes against only the first `size` bytes of the expected prior
value, and passes (letting the injection proceed) whenever they agree. -/
theorem injectString_long_prior (file : File) (src : List Nat) (name : String)
    (value fromValue : List Nat) (offset size : Nat)
    (hok : findSymbol file name = .ok (offset, size))
    (hlong : size < fromValue.length)
    (hcap : value.length + 1 ≤ size) :
    (injectStringSymbol file src name value fromValue ≠
      .error .valueOverflowsCapacity) ∧
    (readAt src offset size = .ok (fromValue.take size) →
      injectStringSymbol file src name value fromValue =
        .ok (copyAndInject src offset (zeroPad size value))) := by
  have hfrom : fromValue ≠ [] := by
    intro h
    rw [h] at hlong
    simp at hlong
  rw [injectStringSymbol_eq file src name value fromValue offset size hok]
  constructor
  · rw [if_neg (by omega : ¬size < value.length + 1), if_pos hfrom]
    cases hr : readAt src offset size with
    | error e =>
      have he := readAt_error_eq src offset size e hr
      subst he
      simp
    | ok existing =>
      by_cases hne : existing ≠ zeroPad size fromValue
      · simp [hne]
      · simp [hne]
  · intro hread
    rw [if_neg (by omega : ¬size < value.length + 1), if_pos hfrom, hread]
    have hz : zeroPad size fromValue = fromValue.take size :=
      zeroPad_of_ge size fromValue (by omega)
    simp [hz]

/-- Witness for C10: a 6-byte expected prior value against a 4-byte symbol
raises no capacity error, and the check passes because the first 4 bytes
match the file's existing bytes. -/
theorem injectString_long_prior_witness :
    (injectStringSymbol ⟨[⟨"a", 0, 4, 0⟩], [⟨"s", 0, 0, 8⟩]⟩ [5, 6, 7, 8, 9, 9] "a"
      [3] [5, 6, 7, 8, 1, 2] ≠ .error .valueOverflowsCapacity) ∧
    injectStringSymbol ⟨[⟨"a", 0, 4, 0⟩], [⟨"s", 0, 0, 8⟩]⟩ [5, 6, 7, 8, 9, 9] "a"
      [3] [5, 6, 7, 8, 1, 2] =
      .ok (copyAndInject [5, 6, 7, 8, 9, 9] 0 (zeroPad 4 [3])) := by
  have h := injectString_long_prior ⟨[⟨"a", 0, 4, 0⟩], [⟨"s", 0, 0, 8⟩]⟩
    [5, 6, 7, 8, 9, 9] "a" [3] [5, 6, 7, 8, 1, 2] 0 4
    (by decide) (by decide) (by decide)
  exact ⟨h.1, h.2 (by decide)⟩

/-- C5: both entry points try the readers in the fixed order ELF, Mach-O,
PE and return the first success; a failure not classified as wrong-format
is propagated unchanged regardless of the later readers' outcomes (they
are not consulted); and when all three fail as wrong-format, the original
ELF error is returned, not the Mach-O or PE one. -/
theorem format_fallback_order :
    (∀ (f : File) (m p : Except ReaderError File), openFile (.ok f) m p = .ok f) ∧
    (∀ (e : String) (m p : Except ReaderError File),
      openFile (.error (.other e)) m p = .error (.other e)) ∧
    (∀ (e1 : String) (f : File) (p : Except ReaderError File),
      openFile (.error (.cantParse e1)) (.ok f) p = .ok f) ∧
    (∀ (e1 e : String) (p : Except ReaderError File),
      openFile (.error (.cantParse e1)) (.error (.other e)) p = .error (.other e)) ∧
    (∀ (e1 e2 : String) (f : File),
      openFile (.error (.cantParse e1)) (.error (.cantParse e2)) (.ok f) = .ok f) ∧
    (∀ e1 e2 e : String,
      openFile (.error (.cantParse e1)) (.error (.cantParse e2)) (.error (.other e)) =
        .error (.other e)) ∧
    (∀ e1 e2 e3 : String,
      openFile (.error (.cantParse e1)) (.error (.cantParse e2))
        (.error (.cantParse e3)) = .error (.cantParse e1)) ∧
    (∀ (u : Unit) (m p : Except ReaderError Unit), dumpSymbols (.ok u) m p = .ok u) ∧
    (∀ (e : String) (m p : Except ReaderError Unit),
      dumpSymbols (.error (.other e)) m p = .error (.other e)) ∧
    (∀ (e1 : String) (u : Unit) (p : Except ReaderError Unit),
      dumpSymbols (.error (.cantParse e1)) (.ok u) p = .ok u) ∧
    (∀ (e1 e : String) (p : Except ReaderError Unit),
      dumpSymbols (.error (.cantParse e1)) (.error (.other e)) p = .error (.other e)) ∧
    (∀ (e1 e2 : String) (u : Unit),
      dumpSymbols (.error (.cantParse e1)) (.error (.cantParse e2)) (.ok u) = .ok u) ∧
    (∀ e1 e2 e : String,
      dumpSymbols (.error (.cantParse e1)) (.error (.cantParse e2))
        (.error (.other e)) = .error (.other e)) ∧
    (∀ e1 e2 e3 : String,
      dumpSymbols (.error (.cantParse e1)) (.error (.cantParse e2))
        (.error (.cantParse e3)) = .error (.cantParse e1)) :=
  by
  refine ⟨?_, ?_, ?_, ?_, ?_, ?_, ?_, ?_, ?_, ?_, ?_, ?_, ?_, ?_⟩ <;>
    intro x y z <;> rfl

/-- C6: a successful patch whose range fits in the source produces an
output stream of exactly the source's length whose bytes below the patch
offset and at or beyond its end coincide with the source's (the source
list itself is untouched: the patcher builds a new stream). -/
theorem copyAndInject_frame (src : List Nat) (offset : Nat) (buf : List Nat)
    (h : offset + buf.length ≤ src.length) :
    (copyAndInject src offset buf).length = src.length ∧
    (∀ k, k < offset → (copyAndInject src offset buf)[k]? = src[k]?) ∧
    (∀ k, offset + buf.length ≤ k → (copyAndInject src offset buf)[k]? = src[k]?) := by
  refine ⟨?_, ?_, ?_⟩
  · simp only [copyAndInject, List.length_append, List.length_take, List.length_drop]
    omega
  · intro k hk
    rw [copyAndInject, List.append_assoc,
      List.getElem?_append_left (by rw [List.length_take]; omega),
      List.getElem?_take, if_pos hk]
  · intro k hk
    rw [copyAndInject, List.append_assoc,
      List.getElem?_append_right (by rw [List.length_take]; omega),
      List.getElem?_append_right (by rw [List.length_take]; omega),
      List.getElem?_drop]
    congr 1
    rw [List.length_take]
    omega

/-- Witness for C6: patching 2 bytes at offset 1 of a 5-byte source keeps
the length at 5 and leaves the bytes at indices 0 and 4 unchanged. -/
theorem copyAndInject_frame_witness :
    (copyAndInject [1, 2, 3, 4, 5] 1 [9, 9]).length = [1, 2, 3, 4, 5].length ∧
    (copyAndInject [1, 2, 3, 4, 5] 1 [9, 9])[0]? = [1, 2, 3, 4, 5][0]? ∧
    (copyAndInject [1, 2, 3, 4, 5] 1 [9, 9])[4]? = [1, 2, 3, 4, 5][4]? := by
  have h := copyAndInject_frame [1, 2, 3, 4, 5] 1 [9, 9] (by decide)
  exact ⟨h.1, h.2.1 0 (by decide), h.2.2 4 (by decide)⟩

/-- C7 (divergence): a source shorter than the patch range does not yield a
truncation error.  The prefix copy of `[0, 5)` over a 3-byte source stops
at EOF with success (io.Copy reports EOF as success, so the Go code's
`err == io.EOF` conversion to `ErrUnexpectedEOF` never fires), and the
whole injection succeeds with a short output: here a resolved range
`[7, 11)` over the 3-byte source `[1, 2, 3]` produces the 7-byte output
`[1, 2, 3, 8, 0, 0, 0]` instead of the claimed unexpected-truncation
failure. -/
theorem copyAndInject_truncated_source :
    copyAndInject [1, 2, 3] 5 [9, 9] = [1, 2, 3, 9, 9] ∧
    injectStringSymbol ⟨[⟨"a", 2, 4, 0⟩], [⟨"s", 0, 5, 0⟩]⟩ [1, 2, 3] "a" [8] [] =
      .ok [1, 2, 3, 8, 0, 0, 0] := by
  refine ⟨by decide, by decide⟩

lemma putUint64LE_length (value : Nat) : (putUint64LE value).length = 8 := by
  simp [putUint64LE]

lemma putUint64LE_foldr (value : Nat) :
    (putUint64LE value).foldr (fun b acc => b + 256 * acc) 0 = value % 2 ^ 64 := by
  have h8 : List.range 8 = [0, 1, 2, 3, 4, 5, 6, 7] := rfl
  rw [putUint64LE, h8]
  simp only [List.map_cons, List.map_nil, List.foldr_cons, List.foldr_nil]
  norm_num
  omega

/-- C8: 64-bit integer injection fails with the type-mismatch error exactly
when the resolved size differs from 8; at size 8 it writes, at the
symbol's offset, the 8 little-endian base-256 digits of the value (they
reconstruct the value modulo `2 ^ 64`). -/
theorem injectUint64_type_check (file : File) (src : List Nat) (name : String)
    (value offset size : Nat)
    (hok : findSymbol file name = .ok (offset, size)) :
    ((injectUint64Symbol file src name value = .error .typeMismatch) ↔ size ≠ 8) ∧
    (size = 8 →
      injectUint64Symbol file src name value =
        .ok (src.take offset ++ putUint64LE value ++ src.drop (offset + 8)) ∧
      (putUint64LE value).length = 8 ∧
      (putUint64LE value).foldr (fun b acc => b + 256 * acc) 0 = value % 2 ^ 64) := by
  have heq : injectUint64Symbol file src name value =
      (if size ≠ 8 then .error .typeMismatch
       else .ok (copyAndInject src offset (putUint64LE value))) := by
    unfold injectUint64Symbol
    rw [hok]
  rw [heq]
  constructor
  · by_cases hs : size = 8
    · simp [hs]
    · simp [hs]
  · intro hs
    rw [if_neg (by simp [hs])]
    refine ⟨?_, putUint64LE_length value, putUint64LE_foldr value⟩
    rw [copyAndInject, putUint64LE_length]

/-- Witness for C8: injecting 258 into an 8-byte symbol at offset 2
succeeds and writes the little-endian digits of 258. -/
theorem injectUint64_type_check_witness :
    ((injectUint64Symbol ⟨[⟨"a", 2, 8, 0⟩], [⟨"s", 0, 0, 16⟩]⟩ (List.range 16) "a"
        258 = .error .typeMismatch) ↔ (8 : Nat) ≠ 8) ∧
    (injectUint64Symbol ⟨[⟨"a", 2, 8, 0⟩], [⟨"s", 0, 0, 16⟩]⟩ (List.range 16) "a"
        258 =
      .ok ((List.range 16).take 2 ++ putUint64LE 258 ++ (List.range 16).drop (2 + 8)) ∧
      (putUint64LE 258).length = 8 ∧
      (putUint64LE 258).foldr (fun b acc => b + 256 * acc) 0 = 258 % 2 ^ 64) := by
  have h := injectUint64_type_check ⟨[⟨"a", 2, 8, 0⟩], [⟨"s", 0, 0, 16⟩]⟩
    (List.range 16) "a" 258 2 8 (by decide)
  exact ⟨h.1, h.2 rfl⟩

end SymbolInject
